import Mathlib

/-!
Verification development for the `pytradersan` portfolio library.

The Python source (src/pytradersan) is shallowly embedded:

* calendar dates and as-of dates are integers counting whole days
  (`pandas` timestamps at day granularity; `(as_of - date).dt.days` is then
  exactly integer subtraction);
* monetary and share quantities are rationals (`float` columns without
  overflow in the regions the claims exercise);
* `pandas` float results that can become non-finite (`inf`/`NaN`) are
  modelled by `PVal`;
* fallible code returns an explicit error component.
-/

namespace Pytradersan

/-- `constants.DAYS_IN_A_YEAR` (src/pytradersan/constants.py, line 1). -/
def DAYS_IN_A_YEAR : Int := 365

/-- One standardized transaction row, columns as in
`constants.TRANSACTIONS_STANDARD_COLS`. -/
structure Trade where
  date : Int
  account : String
  symbol : String
  action : String
  quantity : ℚ
  price : ℚ
  amount : ℚ
deriving DecidableEq, Repr

/-- A transaction row after `Portfolio._process_trades` added the derived
columns (src/pytradersan/portfolio.py, lines 50-72). -/
structure DTrade where
  date : Int
  account : String
  symbol : String
  action : String
  quantity : ℚ
  price : ℚ
  amount : ℚ
  holding_period_days : Int
  amount_holding_period_days : ℚ
  ltcg_flag : Int
  ltcg_shares : ℚ
  cum_quantity : ℚ
  ltcg_cost : ℚ
deriving DecidableEq, Repr

/-- The per-row derived columns of `_process_trades` (portfolio.py,
lines 51-63 and line 70).  `holding_period_days` is
`(as_of_date - date).dt.days`; `ltcg_cost` is computed per-row in the
source after the sort, which does not change row values, so it is
computed here together with the other per-row columns.  `cum_quantity`
is initialised to 0 and filled in by `attachCumAux` below. -/
def deriveFields (asOf : Int) (t : Trade) : DTrade :=
  let hpd : Int := asOf - t.date
  let flag : Int := if DAYS_IN_A_YEAR < hpd then 1 else 0
  let shares : ℚ := (flag : ℚ) * t.quantity
  { date := t.date
    account := t.account
    symbol := t.symbol
    action := t.action
    quantity := t.quantity
    price := t.price
    amount := t.amount
    holding_period_days := hpd
    amount_holding_period_days := t.amount * (hpd : ℚ)
    ltcg_flag := flag
    ltcg_shares := shares
    cum_quantity := 0
    ltcg_cost := shares * t.price }

/-- Sort key of `sort_values(by=["symbol", "date"], ascending=[True, True])`
(portfolio.py, lines 64-66). -/
def tradeLE (a b : DTrade) : Bool :=
  match compare a.symbol b.symbol with
  | .lt => true
  | .eq => decide (a.date ≤ b.date)
  | .gt => false

/-- Insertion step of the sort on derived rows. -/
def insertSorted (t : DTrade) : List DTrade → List DTrade
  | [] => [t]
  | u :: us => if tradeLE t u then t :: u :: us else u :: insertSorted t us

/-- The `(symbol, date)`-ascending sort of `_process_trades`
(portfolio.py, lines 64-66). -/
def sortTrades : List DTrade → List DTrade
  | [] => []
  | t :: ts => insertSorted t (sortTrades ts)

/-- `groupby("symbol")["quantity"].cumsum()` (portfolio.py, lines 67-69):
each row's `cum_quantity` is the previous running total for its symbol
plus its own quantity.  `acc` carries the running total per symbol. -/
def attachCumAux (acc : String → ℚ) : List DTrade → List DTrade
  | [] => []
  | t :: ts =>
    let c : ℚ := acc t.symbol + t.quantity
    { t with cum_quantity := c } ::
      attachCumAux (fun s => if s = t.symbol then c else acc s) ts

/-- The cumulative-quantity pass, starting from an empty position. -/
def attachCum (l : List DTrade) : List DTrade :=
  attachCumAux (fun _ => 0) l

/-- `Portfolio._process_trades` (portfolio.py, lines 50-72): derive the
per-row columns, sort by `(symbol, date)`, and fill `cum_quantity`.
The source has no failure path: it always produces the derived table. -/
def processTrades (asOf : Int) (trades : List Trade) : List DTrade :=
  attachCum (sortTrades (trades.map (deriveFields asOf)))

/-- `self._stcg_lots = self._trades[self._trades.ltcg_flag == 0]`
(portfolio.py, line 72). -/
def stcgLots (l : List DTrade) : List DTrade :=
  l.filter (fun t => t.ltcg_flag == 0)

/-- `self._ltcg_lots = self._trades[self._trades.ltcg_flag == 1]`
(portfolio.py, line 71). -/
def ltcgLots (l : List DTrade) : List DTrade :=
  l.filter (fun t => t.ltcg_flag == 1)

/-- `self.symbols = self._trades.symbol.unique().tolist()`
(portfolio.py, line 73). -/
def uniqueSymbols (l : List DTrade) : List String :=
  (l.map (fun t => t.symbol)).dedup

/-! ### Pandas float values

IEEE-754 floats as produced by the pandas arithmetic in
`_update_snapshot`: a finite value (rationals stand in for the finite
floats), the two infinities, and `NaN`.  Rationals have no negative
zero, so a zero denominator carries positive sign. -/

/-- A pandas float value: finite, `inf`, `-inf`, or `NaN`. -/
inductive PVal where
  | fin (q : ℚ)
  | inf
  | ninf
  | nan
deriving DecidableEq, Repr

/-- Float addition. -/
def padd : PVal → PVal → PVal
  | .fin a, .fin b => .fin (a + b)
  | .nan, _ => .nan
  | _, .nan => .nan
  | .inf, .ninf => .nan
  | .ninf, .inf => .nan
  | .inf, _ => .inf
  | _, .inf => .inf
  | .ninf, _ => .ninf
  | _, .ninf => .ninf

/-- Float multiplication. -/
def pmul : PVal → PVal → PVal
  | .fin a, .fin b => .fin (a * b)
  | .nan, _ => .nan
  | _, .nan => .nan
  | .inf, .inf => .inf
  | .ninf, .ninf => .inf
  | .inf, .ninf => .ninf
  | .ninf, .inf => .ninf
  | .inf, .fin b => if b = 0 then .nan else if 0 < b then .inf else .ninf
  | .fin a, .inf => if a = 0 then .nan else if 0 < a then .inf else .ninf
  | .ninf, .fin b => if b = 0 then .nan else if 0 < b then .ninf else .inf
  | .fin a, .ninf => if a = 0 then .nan else if 0 < a then .ninf else .inf

/-- Float division; dividing a nonzero finite value by zero yields a
signed infinity and `0/0` yields `NaN`, exactly as pandas produces. -/
def pdiv : PVal → PVal → PVal
  | .fin a, .fin b =>
      if b = 0 then (if a = 0 then .nan else if 0 < a then .inf else .ninf)
      else .fin (a / b)
  | .nan, _ => .nan
  | _, .nan => .nan
  | .inf, .inf => .nan
  | .inf, .ninf => .nan
  | .ninf, .inf => .nan
  | .ninf, .ninf => .nan
  | .inf, .fin b => if 0 ≤ b then .inf else .ninf
  | .ninf, .fin b => if 0 ≤ b then .ninf else .inf
  | .fin _, .inf => .fin 0
  | .fin _, .ninf => .fin 0

/-- Float negation. -/
def pneg : PVal → PVal
  | .fin a => .fin (-a)
  | .inf => .ninf
  | .ninf => .inf
  | .nan => .nan

/-- Whether a float value is finite. -/
def PVal.isFin : PVal → Bool
  | .fin _ => true
  | _ => false

/-- `round(x, 4)` of `_update_snapshot`'s `applymap` (portfolio.py,
line 237), on finite values.  Ties at exactly half an ulp round here to
the larger value where Python rounds to even; no claim exercises such a
tie. -/
def round4 (q : ℚ) : ℚ :=
  ((round (q * 10000) : ℤ) : ℚ) / 10000

/-- `round(x, 4)` on a pandas float: `inf` and `NaN` round to themselves. -/
def pround4 : PVal → PVal
  | .fin q => .fin (round4 q)
  | v => v

/-! ### Snapshot builder -/

/-- One row of `self._positions` as produced by `_update_snapshot`
(portfolio.py, lines 204-238).  Fields that stay finite for finite
inputs are rationals; the joined price and everything downstream of it,
and the two ratios, can be `NaN`/`inf` and are `PVal`. -/
structure Position where
  num_shares : ℚ
  cost_basis : ℚ
  wtd_holding_days : ℚ
  ltcg_shares : ℚ
  ltcg_cost : ℚ
  current_price : PVal
  market_value : PVal
  gain : PVal
  gain_perc : PVal
  wtd_avg_holding_period_days : PVal
deriving DecidableEq, Repr

/-- The row of `_update_snapshot` for one symbol (portfolio.py, lines
204-238): group sums of the derived columns, the join with
`self.current_prices` (a missing price joins as `NaN`), the derived
value/gain columns — `gain_perc = -(gain / cost_basis)` with no
near-zero check on the denominator — the sign flip of
`wtd_holding_days`, `wtd_avg_holding_period_days` computed from the
flipped value, and the final `round(x, 4)` of every column. -/
def positionFor (curr : String → Option ℚ) (l : List DTrade) (sym : String) :
    Position :=
  let g := l.filter (fun t => t.symbol == sym)
  let num_shares : ℚ := (g.map (fun t => t.quantity)).sum
  let cost_basis : ℚ := (g.map (fun t => t.amount)).sum
  let wtd0 : ℚ := (g.map (fun t => t.amount_holding_period_days)).sum
  let lshares : ℚ := (g.map (fun t => t.ltcg_shares)).sum
  let lcost : ℚ := (g.map (fun t => t.ltcg_cost)).sum
  let cp : PVal := match curr sym with
    | some q => .fin q
    | none => .nan
  let market_value := pmul (.fin num_shares) cp
  let gain := padd (.fin cost_basis) market_value
  let gain_perc := pneg (pdiv gain (.fin cost_basis))
  let wtd_holding_days : ℚ := -wtd0
  let wtd_avg := pneg (pdiv (.fin wtd_holding_days) (.fin cost_basis))
  { num_shares := round4 num_shares
    cost_basis := round4 cost_basis
    wtd_holding_days := round4 wtd_holding_days
    ltcg_shares := round4 lshares
    ltcg_cost := round4 lcost
    current_price := pround4 cp
    market_value := pround4 market_value
    gain := pround4 gain
    gain_perc := pround4 gain_perc
    wtd_avg_holding_period_days := pround4 wtd_avg }

/-! ### Price cache -/

/-- The class-level price table `Portfolio.portfolio_price_data`,
restricted to the `Close` level that the snapshot consumes: a dated row
index, a ticker column index, and the cell values, where `none` is a
missing cell (`NaN`). -/
structure PriceTable where
  dates : List Int
  cols : List String
  val : Int → String → Option ℚ

/-- Union of two key lists keeping the first list's keys and appending
the second list's new keys, as `DataFrame.combine_first` aligns the
union of the two indexes. -/
def keyUnion {α : Type} [BEq α] (k1 k2 : List α) : List α :=
  k1 ++ k2.filter (fun x => !(k1.contains x))

/-- `a.combine_first(b)` as used on the price cache (portfolio.py,
lines 32-36 and 121-125 and 142-146): the result is indexed by the
union of the keys, and each cell takes `a`'s value unless it is
missing, in which case it takes `b`'s. -/
def combineFirst (a b : PriceTable) : PriceTable :=
  { dates := keyUnion a.dates b.dates
    cols := keyUnion a.cols b.cols
    val := fun d s => (a.val d s).orElse (fun _ => b.val d s) }

/-! ### Portfolio state and pipeline -/

/-- Errors raised by the pipeline and the queries:
`networkError` for a failing remote download, `attributeError` for
reading a missing attribute (`None.strftime`, `self._active_symbols`),
`valueError` and `keyError` for the checks and lookups of
`_assign_price_data`, `typeError` for the unsupported-filter branch of
`get_upcoming_ltcg_lots`. -/
inductive PErr where
  | networkError
  | attributeError
  | valueError
  | keyError
  | typeError
deriving DecidableEq, Repr

/-- A remote price download (`yf.download`): given symbols and an
optional `(start, end)` date range it either fails (network error) or
returns a price table. -/
def Fetch : Type :=
  List String → Option (Int × Int) → Except Unit PriceTable

/-- The observable state of a `Portfolio` object together with the
class-level cache it sees: the raw ledger, the as-of date, the derived
transaction table and symbol list of `_process_trades`, the shared
price cache, the `current_prices` series of `_assign_price_data`, the
`_positions` table, and `_active_symbols` — an attribute that no method
of the class ever assigns, kept as an `Option` that construction leaves
at `none`. -/
structure PState where
  trades : List Trade
  asOf : Int
  processed : List DTrade
  symbols : List String
  cache : Option PriceTable
  currentPrices : String → Option ℚ
  positions : List (String × Position)
  activeSymbols : Option (List String)

/-- The `_process_trades` stage acting on the state: recompute the
derived table and the symbol list (portfolio.py, lines 50-74). -/
def stepProcess (s : PState) : PState :=
  let p := processTrades s.asOf s.trades
  { s with processed := p, symbols := uniqueSymbols p }

/-- The symbols of `_get_download_params` that are present as cache
columns but missing a value at the cache's maximum date
(portfolio.py, lines 98-103). -/
def nanAtMax (c : PriceTable) : List String :=
  match c.dates.max? with
  | none => []
  | some d => c.cols.filter (fun x => (c.val d x).isNone)

/-- `Portfolio.update_price_data` (portfolio.py, lines 107-156) as a
state transformer returning the state actually reached together with
the error, if any, that aborted it.

With an empty cache, `_get_download_params` returns
`max_available_date = None` (line 93); after the missing-symbol
download (which may itself fail, or populate the cache), line 129
calls `.strftime` on that `None` and raises `AttributeError`.  With a
populated cache, the missing symbols (absent columns plus columns
`NaN` at the max cached date) are downloaded and merged with
`combine_first`, then, if the pre-download max cached date is older
than today, the date gap is downloaded for all cached tickers and
merged.  The final `T.drop_duplicates().T.drop_duplicates()` only
removes rows/columns that are duplicated by value and is the identity
on the duplicate-free tables the claims exercise; it is not modelled. -/
def updateCache (fetch : Fetch) (today : Int) (symbols : List String) :
    Option PriceTable → Option PriceTable × Option PErr
  | none =>
    if symbols.isEmpty then (none, some .attributeError)
    else
      match fetch symbols none with
      | .error _ => (none, some .networkError)
      | .ok tbl => (some tbl, some .attributeError)
  | some c =>
    let missing :=
      (symbols.filter (fun x => !(c.cols.contains x))) ++ nanAtMax c
    let r1 : Option PriceTable × Option PErr :=
      if missing.isEmpty then (some c, none)
      else
        match fetch missing none with
        | .error _ => (some c, some .networkError)
        | .ok tbl => (some (combineFirst c tbl), none)
    match r1 with
    | (c1, some e) => (c1, some e)
    | (c1, none) =>
      match c.dates.max? with
      | none => (c1, some .attributeError)
      | some maxD =>
        if maxD < today then
          match c1 with
          | none => (c1, some .attributeError)
          | some c2 =>
            match fetch c2.cols (some (maxD, today)) with
            | .error _ => (c1, some .networkError)
            | .ok tbl => (some (combineFirst c2 tbl), none)
        else (c1, none)

/-- `update_price_data` acting on the state: only the shared cache is
mutated; the error, if any, is the one that interrupted the method
(the Python object keeps every mutation made before the exception). -/
def updatePriceData (fetch : Fetch) (today : Int) (s : PState) :
    PState × Option PErr :=
  let r := updateCache fetch today s.symbols s.cache
  ({ s with cache := r.1 }, r.2)

/-- `Portfolio._assign_price_data` (portfolio.py, lines 158-202): fails
with `ValueError` when the cache is empty or there are no symbols;
otherwise slices the `Close` columns for the portfolio's symbols,
restricts to dates at or before the as-of date, and takes the row at
the maximum remaining date as `current_prices` (a symbol without a
value on that exact row stays missing).  An empty date slice makes
`prices.loc[prices.index.max()]` fail. -/
def assignCurrent (symbols : List String) (asOf : Int) :
    Option PriceTable → Except PErr (String → Option ℚ)
  | none => .error .valueError
  | some c =>
    if symbols.isEmpty then .error .valueError
    else
      match (c.dates.filter (fun d => decide (d ≤ asOf))).max? with
      | none => .error .keyError
      | some d =>
        .ok (fun x =>
          if c.cols.contains x && symbols.contains x then c.val d x
          else none)

/-- `_assign_price_data` acting on the state: on success only
`current_prices` is (re)assigned; on failure the state is untouched. -/
def assignPriceData (s : PState) : PState × Option PErr :=
  match assignCurrent s.symbols s.asOf s.cache with
  | .error e => (s, some e)
  | .ok cp => ({ s with currentPrices := cp }, none)

/-- `Portfolio._update_snapshot` (portfolio.py, lines 204-238): group
the derived table by symbol and build the position rows. -/
def updateSnapshot (s : PState) : PState :=
  let ps := (uniqueSymbols s.processed).map
    (fun sym => (sym, positionFor s.currentPrices s.processed sym))
  { s with positions := ps }

/-- Exception-style sequencing of in-place stages: if the previous
stage raised, later stages do not run and the object keeps the state
reached so far; otherwise the next stage runs on that state. -/
def seqStage (r : PState × Option PErr)
    (f : PState → PState × Option PErr) : PState × Option PErr :=
  match r with
  | (s, some e) => (s, some e)
  | (s, none) => f s

/-- An error stops the sequence and keeps the state reached so far. -/
@[simp] lemma seqStage_some (s : PState) (e : PErr)
    (f : PState → PState × Option PErr) :
    seqStage (s, some e) f = (s, some e) := rfl

/-- An error-free stage passes its state to the next stage. -/
@[simp] lemma seqStage_none (s : PState)
    (f : PState → PState × Option PErr) :
    seqStage (s, none) f = f s := rfl

/-- The pipeline shared by `__init__` and `combine` (portfolio.py,
lines 45-48 and 278-281): trade processing, price refresh, price
assignment, snapshot.  Returns the state reached and the error, if
any, that interrupted it — an exception leaves the Python object
exactly as mutated so far. -/
def runPipeline (fetch : Fetch) (today : Int) (s : PState) :
    PState × Option PErr :=
  seqStage (seqStage (updatePriceData fetch today (stepProcess s))
    assignPriceData) (fun s3 => (updateSnapshot s3, none))

/-- `Portfolio.__init__` (portfolio.py, lines 22-48): seed the shared
cache from the optional `price_data` argument with `combine_first`,
resolve the as-of date (the given one, else now), then run the
pipeline.  `_active_symbols` is never assigned. -/
def initPortfolio (fetch : Fetch) (today : Int)
    (classCache : Option PriceTable) (trades : List Trade)
    (priceData : Option PriceTable) (asOfArg : Option Int) (now : Int) :
    PState × Option PErr :=
  let cache1 : Option PriceTable :=
    match priceData with
    | some p =>
      match classCache with
      | some c => some (combineFirst c p)
      | none => some p
    | none => classCache
  let s0 : PState :=
    { trades := trades
      asOf := asOfArg.getD now
      processed := []
      symbols := []
      cache := cache1
      currentPrices := fun _ => none
      positions := []
      activeSymbols := none }
  runPipeline fetch today s0

/-- The as-of date `combine` leaves on the object (portfolio.py, lines
274-277): when a date is supplied, line 275 converts `self.as_of_date`
— not the argument — so the portfolio keeps its own previous as-of
date; with no argument it takes the minimum of the two. -/
def resolveCombinedAsOf (selfAsOf otherAsOf : Int) (arg : Option Int) : Int :=
  match arg with
  | some _ => selfAsOf
  | none => min selfAsOf otherAsOf

/-- `Portfolio.combine` (portfolio.py, lines 272-281): concatenate the
other portfolio's ledger onto this one's and resolve the as-of date —
both in-place mutations performed before any fallible stage — then
re-run the pipeline.  The other portfolio is only read. -/
def combine (fetch : Fetch) (today : Int) (self other : PState)
    (asOfArg : Option Int) : PState × Option PErr :=
  let s1 :=
    { self with
        trades := self.trades ++ other.trades
        asOf := resolveCombinedAsOf self.asOf other.asOf asOfArg }
  runPipeline fetch today s1

/-! ### Upcoming-LTCG query -/

/-- The `symbols` argument of `get_upcoming_ltcg_lots`: `None`, a
string, a list, or a value of any other type (carrying only its Python
truthiness). -/
inductive SymArg where
  | noneArg
  | strArg (s : String)
  | listArg (l : List String)
  | otherArg (truthy : Bool)
deriving DecidableEq, Repr

/-- Python truthiness of the `symbols` argument as tested by
`if symbols:` (portfolio.py, line 258). -/
def SymArg.isTruthy : SymArg → Bool
  | .noneArg => false
  | .strArg s => !(s == "")
  | .listArg l => !l.isEmpty
  | .otherArg t => t

/-- The candidate lots of `get_upcoming_ltcg_lots` before any symbol
filtering (portfolio.py, lines 256-257): the short-term lots whose
holding period strictly exceeds `DAYS_IN_A_YEAR - days`. -/
def ltcgCandidates (s : PState) (days : Int) : List DTrade :=
  (stcgLots s.processed).filter
    (fun t => decide (DAYS_IN_A_YEAR - days < t.holding_period_days))

/-- The type dispatch on the `symbols` argument (portfolio.py, lines
259-268): a string filters by equality, a list by membership, and any
other type raises `TypeError`. -/
def applySymbolFilter (lots : List DTrade) : SymArg → Except PErr (List DTrade)
  | .strArg v => .ok (lots.filter (fun t => t.symbol == v))
  | .listArg l => .ok (lots.filter (fun t => l.contains t.symbol))
  | .noneArg => .ok lots
  | .otherArg _ => .error .typeError

/-- The final `lots[lots.symbol.isin(self._active_symbols)]`
(portfolio.py, line 269): reading `_active_symbols` raises
`AttributeError` whenever it was never assigned. -/
def finalFilter (s : PState) (lots : List DTrade) : Except PErr (List DTrade) :=
  match s.activeSymbols with
  | some act => .ok (lots.filter (fun t => act.contains t.symbol))
  | none => .error .attributeError

/-- `Portfolio.get_upcoming_ltcg_lots` (portfolio.py, lines 251-270). -/
def getUpcomingLtcgLots (s : PState) (days : Int) (symbols : SymArg) :
    Except PErr (List DTrade) :=
  let lots := ltcgCandidates s days
  if symbols.isTruthy then
    match applySymbolFilter lots symbols with
    | .error e => .error e
    | .ok lots2 => finalFilter s lots2
  else finalFilter s lots

/-! ### Sample data used by witnesses and counterexamples -/

/-- The BUY of the spec's worked scenario: 10 shares of "ABC" at price
100 on day 0, amount -1000. -/
def abcBuy : Trade :=
  { date := 0, account := "a1", symbol := "ABC", action := "BUY",
    quantity := 10, price := 100, amount := -1000 }

/-- The derived row `processTrades 400 [abcBuy]` produces. -/
def abcDerived : DTrade :=
  { date := 0, account := "a1", symbol := "ABC", action := "BUY",
    quantity := 10, price := 100, amount := -1000,
    holding_period_days := 400, amount_holding_period_days := -400000,
    ltcg_flag := 1, ltcg_shares := 10, cum_quantity := 10,
    ltcg_cost := 1000 }

/-- Price lookup holding 120 for "ABC". -/
def c3Curr : String → Option ℚ :=
  fun s => if s = "ABC" then some 120 else none

/-! ### General lemmas about the lot processor -/

/-- Membership through the insertion step of the sort. -/
lemma mem_insertSorted {t d : DTrade} :
    ∀ {l : List DTrade}, d ∈ insertSorted t l ↔ d = t ∨ d ∈ l := by
  intro l
  induction l with
  | nil => simp [insertSorted]
  | cons u us ih =>
    by_cases h : tradeLE t u = true
    · simp only [insertSorted, if_pos h, List.mem_cons]
    · simp only [insertSorted, if_neg h, List.mem_cons, ih]
      tauto

/-- The sort keeps exactly the rows of its input. -/
lemma mem_sortTrades {d : DTrade} :
    ∀ {l : List DTrade}, d ∈ sortTrades l ↔ d ∈ l := by
  intro l
  induction l with
  | nil => simp [sortTrades]
  | cons t ts ih =>
    simp [sortTrades, mem_insertSorted, ih, List.mem_cons]

/-- Two derived rows that agree on every column except `cum_quantity`. -/
def eqExceptCum (d e : DTrade) : Prop :=
  d.date = e.date ∧ d.account = e.account ∧ d.symbol = e.symbol ∧
  d.action = e.action ∧ d.quantity = e.quantity ∧ d.price = e.price ∧
  d.amount = e.amount ∧ d.holding_period_days = e.holding_period_days ∧
  d.amount_holding_period_days = e.amount_holding_period_days ∧
  d.ltcg_flag = e.ltcg_flag ∧ d.ltcg_shares = e.ltcg_shares ∧
  d.ltcg_cost = e.ltcg_cost

/-- The cumulative pass only rewrites `cum_quantity`. -/
lemma attachCumAux_mem :
    ∀ (l : List DTrade) (acc : String → ℚ) (d : DTrade),
      d ∈ attachCumAux acc l → ∃ e ∈ l, eqExceptCum d e := by
  intro l
  induction l with
  | nil =>
    intro acc d h
    simp [attachCumAux] at h
  | cons t ts ih =>
    intro acc d h
    simp only [attachCumAux, List.mem_cons] at h
    rcases h with h | h
    · subst h
      exact ⟨t, List.mem_cons_self t ts, by simp [eqExceptCum]⟩
    · obtain ⟨e, he, hfe⟩ := ih _ d h
      exact ⟨e, List.mem_cons_of_mem t he, hfe⟩

/-- Every processed row comes from a ledger row, with the derived
columns given by `deriveFields`'s formulas. -/
lemma processTrades_mem (asOf : Int) (trades : List Trade) (d : DTrade)
    (hd : d ∈ processTrades asOf trades) :
    ∃ t ∈ trades,
      d.symbol = t.symbol ∧ d.quantity = t.quantity ∧ d.price = t.price ∧
      d.amount = t.amount ∧ d.date = t.date ∧
      d.holding_period_days = asOf - t.date ∧
      d.ltcg_flag = (if DAYS_IN_A_YEAR < asOf - t.date then 1 else 0) ∧
      d.ltcg_shares = (d.ltcg_flag : ℚ) * t.quantity ∧
      d.ltcg_cost = d.ltcg_shares * t.price ∧
      d.amount_holding_period_days = t.amount * ((asOf - t.date : Int) : ℚ) := by
  unfold processTrades attachCum at hd
  obtain ⟨e, he, hfe⟩ := attachCumAux_mem _ _ _ hd
  rw [mem_sortTrades] at he
  obtain ⟨t, ht, rfl⟩ := List.mem_map.mp he
  obtain ⟨h1, h2, h3, h4, h5, h6, h7, h8, h9, h10, h11, h12⟩ := hfe
  simp only [deriveFields] at h1 h3 h5 h6 h7 h8 h9 h10 h11 h12
  refine ⟨t, ht, h3, h5, h6, h7, h1, h8, h10, ?_, ?_, h9⟩
  · rw [h11, h10]
  · rw [h12, h11]

/-- On whole days the cutoffs `365` and `365.25` agree: an integer
exceeds `DAYS_IN_A_YEAR - k` exactly when it exceeds `365.25 - k`. -/
lemma threshold_bridge (k n : ℤ) :
    DAYS_IN_A_YEAR - k < n ↔ (365.25 : ℚ) - (k : ℚ) < (n : ℚ) := by
  unfold DAYS_IN_A_YEAR
  constructor
  · intro h
    have h1 : (366 : ℤ) - k ≤ n := by omega
    have h2 : ((366 : ℤ) - k : ℚ) ≤ (n : ℚ) := by exact_mod_cast h1
    push_cast at h2
    norm_num
    linarith
  · intro h
    by_contra hc
    push_neg at hc
    have h2 : ((n : ℤ) : ℚ) ≤ ((365 : ℤ) - k : ℚ) := by exact_mod_cast hc
    push_cast at h2
    norm_num at h
    linarith

/-- The `k = 0` case of `threshold_bridge`. -/
lemma year_bridge (n : ℤ) :
    DAYS_IN_A_YEAR < n ↔ (365.25 : ℚ) < (n : ℚ) := by
  have h := threshold_bridge 0 n
  simpa using h

/-! ### Claims -/

/-- C1: for every transaction and as-of date, the derived `ltcg_flag`
equals 1 exactly when the transaction's `holding_period_days` strictly
exceeds the 365.25-day long-term threshold (the source compares the
whole-day count against `DAYS_IN_A_YEAR = 365`, which on whole days is
the same strict cutoff), equals 0 otherwise, and `ltcg_shares` is the
quantity when flagged and 0 otherwise. -/
theorem C1_ltcg_flag (asOf : Int) (trades : List Trade) (d : DTrade)
    (hd : d ∈ processTrades asOf trades) :
    (d.ltcg_flag = 1 ↔ (365.25 : ℚ) < (d.holding_period_days : ℚ)) ∧
    (d.ltcg_flag = 0 ↔ ¬ (365.25 : ℚ) < (d.holding_period_days : ℚ)) ∧
    d.ltcg_shares = (if d.ltcg_flag = 1 then d.quantity else 0) := by
  obtain ⟨t, ht, hsym, hqty, hpr, ham, hdate, hhpd, hflag, hshares, hcost,
    hahpd⟩ := processTrades_mem asOf trades d hd
  refine ⟨?_, ?_, ?_⟩
  · rw [hflag, hhpd, ← year_bridge]
    split_ifs with h <;> simp [h]
  · rw [hflag, hhpd, ← year_bridge]
    split_ifs with h <;> simp [h]
  · rw [hshares, hqty, hflag]
    split_ifs <;> simp_all

/-- `_process_trades` on the worked scenario's one-trade ledger. -/
lemma processTrades_abc : processTrades 400 [abcBuy] = [abcDerived] := by
  norm_num [processTrades, attachCum, attachCumAux, sortTrades, insertSorted,
    deriveFields, abcBuy, abcDerived, DAYS_IN_A_YEAR]

/-- Witness for C1 at the one-trade ledger of the worked scenario. -/
theorem C1_ltcg_flag_witness :
    abcDerived ∈ processTrades 400 [abcBuy] ∧
    ((abcDerived.ltcg_flag = 1 ↔
        (365.25 : ℚ) < (abcDerived.holding_period_days : ℚ)) ∧
      (abcDerived.ltcg_flag = 0 ↔
        ¬ (365.25 : ℚ) < (abcDerived.holding_period_days : ℚ)) ∧
      abcDerived.ltcg_shares =
        (if abcDerived.ltcg_flag = 1 then abcDerived.quantity else 0)) :=
  ⟨by rw [processTrades_abc]; exact List.mem_singleton_self abcDerived,
    C1_ltcg_flag 400 [abcBuy] abcDerived
      (by rw [processTrades_abc]; exact List.mem_singleton_self abcDerived)⟩

/-- A transaction dated after the as-of date: day 10, as-of day 5. -/
def lateTrade : Trade :=
  { date := 10, account := "a1", symbol := "XYZ", action := "BUY",
    quantity := 1, price := 5, amount := -5 }

/-- The derived row `processTrades 5 [lateTrade]` produces: a negative
holding period, silently. -/
def lateDerived : DTrade :=
  { date := 10, account := "a1", symbol := "XYZ", action := "BUY",
    quantity := 1, price := 5, amount := -5,
    holding_period_days := -5, amount_holding_period_days := 25,
    ltcg_flag := 0, ltcg_shares := 0, cum_quantity := 1, ltcg_cost := 0 }

/-- C2, counterexample: `_process_trades` has no as-of-date validation
and no `InvalidAsOfDateError` exists anywhere in the source; on a
ledger holding a transaction dated after the as-of date, processing
completes and returns a derived table whose holding period is negative
— exactly the silent behaviour the claim says is rejected. -/
theorem C2_counterexample :
    processTrades 5 [lateTrade] = [lateDerived] ∧
    lateDerived.holding_period_days < 0 := by
  constructor
  · norm_num [processTrades, attachCum, attachCumAux, sortTrades,
      insertSorted, deriveFields, lateTrade, lateDerived, DAYS_IN_A_YEAR]
  · norm_num [lateDerived]

/-- C2, amended: processing never fails (the embedding of
`_process_trades` is a total function); a transaction dated after the
as-of date silently receives a negative `holding_period_days`, and when
every transaction date is at most the as-of date every
`holding_period_days` is non-negative. -/
theorem C2_holding_period_nonneg (asOf : Int) (trades : List Trade)
    (h : ∀ t ∈ trades, t.date ≤ asOf) :
    ∀ d ∈ processTrades asOf trades, 0 ≤ d.holding_period_days := by
  intro d hd
  obtain ⟨t, ht, hsym, hqty, hpr, ham, hdate, hhpd, hrest⟩ :=
    processTrades_mem asOf trades d hd
  rw [hhpd]
  have := h t ht
  omega

/-- Witness for C2's amended statement on the worked scenario. -/
theorem C2_holding_period_nonneg_witness :
    (∀ t ∈ [abcBuy], t.date ≤ (400 : Int)) ∧
    ∀ d ∈ processTrades 400 [abcBuy], 0 ≤ d.holding_period_days :=
  ⟨by intro t ht; rw [List.mem_singleton] at ht; subst ht; norm_num [abcBuy],
    C2_holding_period_nonneg 400 [abcBuy]
      (by intro t ht; rw [List.mem_singleton] at ht; subst ht;
          norm_num [abcBuy])⟩

/-- The position row the snapshot builder computes for the worked
scenario; note `gain_perc` is `+0.2`, not the claimed `-0.2`:
`gain_perc = -(gain / cost_basis) = -(200 / -1000) = 0.2`. -/
def c3Position : Position :=
  { num_shares := 10, cost_basis := -1000, wtd_holding_days := 400000,
    ltcg_shares := 10, ltcg_cost := 1000,
    current_price := PVal.fin 120, market_value := PVal.fin 1200,
    gain := PVal.fin 200, gain_perc := PVal.fin (1/5),
    wtd_avg_holding_period_days := PVal.fin 400 }

/-- The snapshot row of the worked scenario, evaluated. -/
lemma positionFor_abc :
    positionFor c3Curr (processTrades 400 [abcBuy]) "ABC" = c3Position := by
  rw [processTrades_abc]
  norm_num [positionFor, c3Curr, abcDerived, c3Position, padd, pmul, pdiv,
    pneg, pround4, round4, round_eq]

/-- C3, counterexample: in the worked scenario the code's `gain_perc`
is `+0.2` (a 20% gain), not the claimed `-0.2`. -/
theorem C3_counterexample :
    (positionFor c3Curr (processTrades 400 [abcBuy]) "ABC").gain_perc =
      PVal.fin (1/5) ∧
    PVal.fin ((1 : ℚ)/5) ≠ PVal.fin (-0.2 : ℚ) := by
  constructor
  · rw [positionFor_abc]
    norm_num [c3Position]
  · simp only [ne_eq, PVal.fin.injEq]
    norm_num

/-- C3, amended: the worked scenario with `gain_perc = +0.2`; all other
claimed values hold as stated: the derived row has
`holding_period_days = 400`, `ltcg_flag = 1`, `ltcg_shares = 10`,
`ltcg_cost = 1000`, and the position row has `num_shares = 10`,
`cost_basis = -1000`, `market_value = 1200`, `gain = 200`. -/
theorem C3_scenario :
    processTrades 400 [abcBuy] = [abcDerived] ∧
    abcDerived.holding_period_days = 400 ∧ abcDerived.ltcg_flag = 1 ∧
    abcDerived.ltcg_shares = 10 ∧ abcDerived.ltcg_cost = 1000 ∧
    positionFor c3Curr (processTrades 400 [abcBuy]) "ABC" = c3Position ∧
    c3Position.num_shares = 10 ∧ c3Position.cost_basis = -1000 ∧
    c3Position.market_value = PVal.fin 1200 ∧
    c3Position.gain = PVal.fin 200 ∧
    c3Position.gain_perc = PVal.fin (0.2 : ℚ) := by
  refine ⟨processTrades_abc, rfl, rfl, rfl, rfl, positionFor_abc,
    rfl, rfl, rfl, rfl, ?_⟩
  norm_num [c3Position]

/-! ### Lemmas about the price-cache merge -/

/-- Two price tables with equal components are equal. -/
lemma priceTable_eq {a b : PriceTable} (hd : a.dates = b.dates)
    (hc : a.cols = b.cols) (hv : a.val = b.val) : a = b := by
  cases a
  cases b
  simp only at hd hc hv
  subst hd
  subst hc
  subst hv
  rfl

/-- When every key of `k2` is already in `k1`, the union is `k1`. -/
lemma keyUnion_of_subset {α : Type} [BEq α] [LawfulBEq α]
    {k1 k2 : List α} (h : ∀ x ∈ k2, x ∈ k1) : keyUnion k1 k2 = k1 := by
  unfold keyUnion
  have hnil : k2.filter (fun x => !(k1.contains x)) = [] := by
    refine List.filter_eq_nil_iff.mpr ?_
    intro a ha
    simp [List.elem_iff]
    exact h a ha
  rw [hnil, List.append_nil]

/-- A key of either side is a key of the union. -/
lemma mem_keyUnion_of_right {α : Type} [BEq α] [LawfulBEq α]
    {k1 k2 : List α} {x : α} (h : x ∈ k2) : x ∈ keyUnion k1 k2 := by
  unfold keyUnion
  by_cases h1 : x ∈ k1
  · exact List.mem_append_left _ h1
  · refine List.mem_append_right _ ?_
    refine List.mem_filter.mpr ⟨h, ?_⟩
    simp [List.elem_iff]
    exact h1

/-- The union of duplicate-free key lists is duplicate-free. -/
lemma keyUnion_nodup {α : Type} [BEq α] [LawfulBEq α]
    {k1 k2 : List α} (h1 : k1.Nodup) (h2 : k2.Nodup) :
    (keyUnion k1 k2).Nodup := by
  unfold keyUnion
  refine List.Nodup.append h1 (h2.filter _) ?_
  intro a ha1 ha2
  have := (List.mem_filter.mp ha2).2
  simp [List.elem_iff] at this
  exact this ha1

/-- C6: the `combine_first` merge of the price cache is idempotent
(merging a table with itself changes nothing), re-merging an
already-merged fetch result is the identity (no duplicate rows or
columns appear, and no value changes), and any key at which the
existing table already holds a non-missing value keeps that value
rather than being overwritten by the newly fetched one. -/
theorem C6_combine_first (a b : PriceTable)
    (had : a.dates.Nodup) (hac : a.cols.Nodup)
    (hbd : b.dates.Nodup) (hbc : b.cols.Nodup) :
    combineFirst a a = a ∧
    combineFirst (combineFirst a b) b = combineFirst a b ∧
    (∀ d s v, a.val d s = some v → (combineFirst a b).val d s = some v) ∧
    (combineFirst a b).dates.Nodup ∧ (combineFirst a b).cols.Nodup := by
  refine ⟨?_, ?_, ?_, ?_, ?_⟩
  · refine priceTable_eq ?_ ?_ ?_
    · exact keyUnion_of_subset (fun x hx => hx)
    · exact keyUnion_of_subset (fun x hx => hx)
    · funext d s
      show ((a.val d s).orElse fun _ => a.val d s) = a.val d s
      cases a.val d s <;> rfl
  · refine priceTable_eq ?_ ?_ ?_
    · exact keyUnion_of_subset (fun x hx => mem_keyUnion_of_right hx)
    · exact keyUnion_of_subset (fun x hx => mem_keyUnion_of_right hx)
    · funext d s
      show ((((a.val d s).orElse fun _ => b.val d s).orElse
          fun _ => b.val d s)) = (a.val d s).orElse fun _ => b.val d s
      cases a.val d s <;> cases b.val d s <;> rfl
  · intro d s v h
    show ((a.val d s).orElse fun _ => b.val d s) = some v
    rw [h]
    rfl
  · exact keyUnion_nodup had hbd
  · exact keyUnion_nodup hac hbc

/-- A two-day, one-ticker price table. -/
def pt1 : PriceTable :=
  { dates := [0, 1], cols := ["ABC"],
    val := fun d s => if s = "ABC" && d ≤ 1 then some (100 + d) else none }

/-- A price table bringing one new day and one new ticker. -/
def pt2 : PriceTable :=
  { dates := [1, 2], cols := ["ABC", "NEW"],
    val := fun d s => if s = "NEW" then some 7 else some (200 + d) }

/-- Witness for C6 on two concrete tables. -/
theorem C6_combine_first_witness :
    (pt1.dates.Nodup ∧ pt1.cols.Nodup ∧ pt2.dates.Nodup ∧
      pt2.cols.Nodup) ∧
    (combineFirst pt1 pt1 = pt1 ∧
      combineFirst (combineFirst pt1 pt2) pt2 = combineFirst pt1 pt2 ∧
      (∀ d s v, pt1.val d s = some v →
        (combineFirst pt1 pt2).val d s = some v) ∧
      (combineFirst pt1 pt2).dates.Nodup ∧
      (combineFirst pt1 pt2).cols.Nodup) :=
  ⟨⟨by decide, by decide, by decide, by decide⟩,
    C6_combine_first pt1 pt2 (by decide) (by decide) (by decide) (by decide)⟩

/-! ### Lemmas about the snapshot divisions -/

/-- Any pandas division with a zero denominator is non-finite
(`inf`, `-inf`, or `NaN`). -/
lemma pdiv_zero_den_not_fin (x : PVal) :
    (pdiv x (PVal.fin 0)).isFin = false := by
  cases x with
  | fin q =>
    simp only [pdiv, if_pos rfl]
    split_ifs <;> rfl
  | inf => simp [pdiv, PVal.isFin]
  | ninf => simp [pdiv, PVal.isFin]
  | nan => rfl

/-- Negation preserves finiteness. -/
lemma pneg_isFin (x : PVal) : (pneg x).isFin = x.isFin := by
  cases x <;> rfl

/-- Rounding preserves finiteness. -/
lemma pround4_isFin (x : PVal) : (pround4 x).isFin = x.isFin := by
  cases x <;> rfl

/-- C7, amended: `_update_snapshot` performs no near-zero check on
`cost_basis` before dividing; for a position whose summed `amount` is
zero both ratio columns are computed by dividing by zero and come out
non-finite (`inf`, `-inf` or `NaN`) instead of being guarded. -/
theorem C7_division_unguarded (curr : String → Option ℚ)
    (l : List DTrade) (sym : String)
    (h : ((l.filter (fun t => t.symbol == sym)).map
        (fun t => t.amount)).sum = 0) :
    (positionFor curr l sym).gain_perc.isFin = false ∧
    (positionFor curr l sym).wtd_avg_holding_period_days.isFin = false := by
  simp only [positionFor]
  rw [h]
  constructor
  · rw [pround4_isFin, pneg_isFin, pdiv_zero_den_not_fin]
  · rw [pround4_isFin, pneg_isFin, pdiv_zero_den_not_fin]

/-- A SELL that exactly refunds the BUY's cash while leaving shares:
quantity -5, amount +1000, same day as `abcBuy`. -/
def abcSell2 : Trade :=
  { date := 0, account := "a1", symbol := "ABC", action := "SELL",
    quantity := -5, price := 200, amount := 1000 }

/-- The derived row for `abcSell2` at as-of day 400. -/
def abcSellDerived : DTrade :=
  { date := 0, account := "a1", symbol := "ABC", action := "SELL",
    quantity := -5, price := 200, amount := 1000,
    holding_period_days := 400, amount_holding_period_days := 400000,
    ltcg_flag := 1, ltcg_shares := -5, cum_quantity := 5,
    ltcg_cost := -1000 }

/-- `_process_trades` on the zero-cost-basis two-trade ledger. -/
lemma processTrades_abc2 :
    processTrades 400 [abcBuy, abcSell2] = [abcDerived, abcSellDerived] := by
  norm_num [processTrades, attachCum, attachCumAux, sortTrades, insertSorted,
    tradeLE, deriveFields, abcBuy, abcSell2, abcDerived, abcSellDerived,
    DAYS_IN_A_YEAR]

/-- C7, counterexample: a position with `cost_basis = 0` (a buy and a
sell with offsetting cash amounts but a leftover 5 shares) reaches the
divisions with a zero denominator: the code computes
`gain_perc = -(600 / 0) = -inf` and
`wtd_avg_holding_period_days = -(0 / 0) = NaN` — the division is
executed, not guarded. -/
theorem C7_counterexample :
    (positionFor c3Curr (processTrades 400 [abcBuy, abcSell2])
        "ABC").cost_basis = 0 ∧
    (positionFor c3Curr (processTrades 400 [abcBuy, abcSell2])
        "ABC").gain_perc = PVal.ninf ∧
    (positionFor c3Curr (processTrades 400 [abcBuy, abcSell2])
        "ABC").wtd_avg_holding_period_days = PVal.nan := by
  rw [processTrades_abc2]
  norm_num [positionFor, c3Curr, abcDerived, abcSellDerived, padd, pmul,
    pdiv, pneg, pround4, round4, round_eq]

/-- Witness for C7's amended statement at the concrete derived table of
the zero-cost-basis ledger. -/
theorem C7_division_unguarded_witness :
    ((([abcDerived, abcSellDerived].filter
        (fun t => t.symbol == "ABC")).map (fun t => t.amount)).sum = 0) ∧
    ((positionFor c3Curr [abcDerived, abcSellDerived]
        "ABC").gain_perc.isFin = false ∧
      (positionFor c3Curr [abcDerived, abcSellDerived]
        "ABC").wtd_avg_holding_period_days.isFin = false) :=
  ⟨by norm_num [abcDerived, abcSellDerived],
    C7_division_unguarded c3Curr [abcDerived, abcSellDerived] "ABC"
      (by norm_num [abcDerived, abcSellDerived])⟩

/-! ### Lemmas about the cumulative quantity -/

/-- When no row carries the symbol, the filtered cumulative list is
empty. -/
lemma attachCumAux_filter_nil :
    ∀ (l : List DTrade) (acc : String → ℚ) (sym : String),
      (∀ d ∈ l, d.symbol ≠ sym) →
      (attachCumAux acc l).filter (fun d => d.symbol == sym) = [] := by
  intro l
  induction l with
  | nil => intro acc sym h; rfl
  | cons t ts ih =>
    intro acc sym h
    have ht : t.symbol ≠ sym := h t (List.mem_cons_self t ts)
    simp only [attachCumAux, List.filter_cons]
    rw [if_neg (by simpa using ht)]
    exact ih _ sym (fun d hd => h d (List.mem_cons_of_mem t hd))

/-- The cumulative pass does not change which quantities the
symbol-filtered list carries. -/
lemma attachCumAux_filter_map_quantity :
    ∀ (l : List DTrade) (acc : String → ℚ) (sym : String),
      ((attachCumAux acc l).filter (fun d => d.symbol == sym)).map
          (fun d => d.quantity) =
        ((l.filter (fun d => d.symbol == sym)).map (fun d => d.quantity)) := by
  intro l
  induction l with
  | nil => intro acc sym; rfl
  | cons t ts ih =>
    intro acc sym
    simp only [attachCumAux, List.filter_cons]
    by_cases ht : t.symbol = sym
    · rw [if_pos (by simpa using ht), if_pos (by simpa using ht)]
      simp only [List.map_cons]
      rw [ih]
    · rw [if_neg (by simpa using ht), if_neg (by simpa using ht)]
      exact ih _ sym

/-- The `cum_quantity` of the last row carrying a symbol is the running
total the pass started from plus the sum of that symbol's quantities. -/
lemma attachCumAux_lastCum :
    ∀ (l : List DTrade) (acc : String → ℚ) (sym : String),
      (∃ d ∈ l, d.symbol = sym) →
      (((attachCumAux acc l).filter
          (fun d => d.symbol == sym)).getLast?).map
          (fun d => d.cum_quantity) =
        some (acc sym +
          ((l.filter (fun d => d.symbol == sym)).map
            (fun d => d.quantity)).sum) := by
  intro l
  induction l with
  | nil =>
    intro acc sym h
    simp at h
  | cons t ts ih =>
    intro acc sym h
    simp only [attachCumAux, List.filter_cons]
    by_cases ht : t.symbol = sym
    · rw [if_pos (by simpa using ht), if_pos (by simpa using ht)]
      by_cases hts : ∃ d ∈ ts, d.symbol = sym
      · have hlast := ih (fun s => if s = t.symbol then
            acc t.symbol + t.quantity else acc s) sym hts
        simp only at hlast
        have hacc : (if sym = t.symbol then acc t.symbol + t.quantity
            else acc sym) = acc sym + t.quantity := by
          rw [if_pos ht.symm, ht]
        rw [hacc] at hlast
        obtain ⟨r, rs, hr⟩ :
            ∃ r rs, (attachCumAux (fun s => if s = t.symbol then
              acc t.symbol + t.quantity else acc s) ts).filter
                (fun d => d.symbol == sym) = r :: rs := by
          rcases hfr : (attachCumAux (fun s => if s = t.symbol then
              acc t.symbol + t.quantity else acc s) ts).filter
                (fun d => d.symbol == sym) with _ | ⟨r, rs⟩
          · rw [hfr] at hlast
            simp at hlast
          · exact ⟨r, rs, hfr⟩
        rw [hr] at hlast ⊢
        rw [List.getLast?_cons_cons, hlast, List.map_cons, List.sum_cons,
          add_assoc]
      · push_neg at hts
        rw [attachCumAux_filter_nil ts
            (fun s => if s = t.symbol then acc t.symbol + t.quantity
              else acc s) sym hts,
          List.filter_eq_nil_iff.mpr
            (fun a ha => by simpa using hts a ha)]
        rw [List.getLast?_singleton]
        simp only [Option.map_some', List.map_cons, List.map_nil,
          List.sum_cons, List.sum_nil]
        rw [ht, add_zero]
    · rw [if_neg (by simpa using ht), if_neg (by simpa using ht)]
      have hts : ∃ d ∈ ts, d.symbol = sym := by
        obtain ⟨d, hd, hds⟩ := h
        rcases List.mem_cons.mp hd with rfl | hd2
        · exact absurd hds ht
        · exact ⟨d, hd2, hds⟩
      have hlast := ih (fun s => if s = t.symbol then
          acc t.symbol + t.quantity else acc s) sym hts
      simp only at hlast
      have hacc : (if sym = t.symbol then acc t.symbol + t.quantity
          else acc sym) = acc sym := by
        rw [if_neg (fun hc => ht hc.symm)]
      rw [hacc] at hlast
      exact hlast

/-- C8, amended: for every ledger and every symbol present in it, the
`cum_quantity` of that symbol's last row in the sorted derived table
equals the symbol's summed quantity, and the Position table's
`num_shares` is that same total after the table's `round(x, 4)`; the
two coincide exactly when the total needs at most four decimal
places. -/
theorem C8_last_cum (asOf : Int) (trades : List Trade) (sym : String)
    (curr : String → Option ℚ)
    (h : ∃ d ∈ processTrades asOf trades, d.symbol = sym) :
    ∃ c, (((processTrades asOf trades).filter
        (fun d => d.symbol == sym)).getLast?).map
        (fun d => d.cum_quantity) = some c ∧
      (positionFor curr (processTrades asOf trades) sym).num_shares =
        round4 c := by
  have hsorted : ∃ d ∈ sortTrades (trades.map (deriveFields asOf)),
      d.symbol = sym := by
    obtain ⟨d, hd, hds⟩ := h
    unfold processTrades attachCum at hd
    obtain ⟨e, he, hfe⟩ := attachCumAux_mem _ _ _ hd
    exact ⟨e, he, by rw [← hfe.2.2.1, hds]⟩
  have hlast := attachCumAux_lastCum
    (sortTrades (trades.map (deriveFields asOf))) (fun _ => 0) sym hsorted
  refine ⟨(((sortTrades (trades.map (deriveFields asOf))).filter
      (fun d => d.symbol == sym)).map (fun d => d.quantity)).sum, ?_, ?_⟩
  · unfold processTrades attachCum
    rw [hlast, zero_add]
  · simp only [positionFor]
    unfold processTrades attachCum
    rw [attachCumAux_filter_map_quantity]

/-- Witness for C8's amended statement on the worked scenario. -/
theorem C8_last_cum_witness :
    (∃ d ∈ processTrades 400 [abcBuy], d.symbol = "ABC") ∧
    ∃ c, (((processTrades 400 [abcBuy]).filter
        (fun d => d.symbol == "ABC")).getLast?).map
        (fun d => d.cum_quantity) = some c ∧
      (positionFor c3Curr (processTrades 400 [abcBuy]) "ABC").num_shares =
        round4 c :=
  ⟨⟨abcDerived,
      (by rw [processTrades_abc]
          exact List.mem_singleton_self abcDerived), rfl⟩,
    C8_last_cum 400 [abcBuy] "ABC" c3Curr
      ⟨abcDerived,
        (by rw [processTrades_abc]
            exact List.mem_singleton_self abcDerived), rfl⟩⟩

/-- A BUY of a dust quantity that the 4-decimal rounding erases. -/
def tinyTrade : Trade :=
  { date := 0, account := "a1", symbol := "TSY", action := "BUY",
    quantity := 1/100000, price := 1, amount := -1 }

/-- The derived row `processTrades 10 [tinyTrade]` produces. -/
def tinyDerived : DTrade :=
  { date := 0, account := "a1", symbol := "TSY", action := "BUY",
    quantity := 1/100000, price := 1, amount := -1,
    holding_period_days := 10, amount_holding_period_days := -10,
    ltcg_flag := 0, ltcg_shares := 0, cum_quantity := 1/100000,
    ltcg_cost := 0 }

/-- `_process_trades` on the dust-quantity ledger. -/
lemma processTrades_tiny :
    processTrades 10 [tinyTrade] = [tinyDerived] := by
  norm_num [processTrades, attachCum, attachCumAux, sortTrades, insertSorted,
    deriveFields, tinyTrade, tinyDerived, DAYS_IN_A_YEAR]

/-- C8, counterexample: with a single BUY of `1/100000` shares the last
`cum_quantity` is `1/100000`, but the Position table stores
`num_shares` after `round(x, 4)`, which is `0` — the two values are
not equal, so the claimed identity fails on the rounded table. -/
theorem C8_counterexample :
    (((processTrades 10 [tinyTrade]).filter
        (fun d => d.symbol == "TSY")).getLast?).map
        (fun d => d.cum_quantity) = some ((1 : ℚ)/100000) ∧
    (positionFor c3Curr (processTrades 10 [tinyTrade]) "TSY").num_shares =
      0 ∧
    ((1 : ℚ)/100000) ≠ (0 : ℚ) := by
  rw [processTrades_tiny]
  refine ⟨by norm_num [tinyDerived], ?_, by norm_num⟩
  norm_num [positionFor, c3Curr, tinyDerived, padd, pmul, pdiv, pneg,
    pround4, round4, round_eq]

/-! ### Lemmas about the pipeline -/

/-- `_assign_price_data` never touches the ledger, the as-of date or
`_active_symbols`. -/
lemma assignPriceData_pres (s : PState) :
    (assignPriceData s).1.trades = s.trades ∧
    (assignPriceData s).1.asOf = s.asOf ∧
    (assignPriceData s).1.activeSymbols = s.activeSymbols := by
  unfold assignPriceData
  cases assignCurrent s.symbols s.asOf s.cache with
  | error e => exact ⟨rfl, rfl, rfl⟩
  | ok cp => exact ⟨rfl, rfl, rfl⟩

/-- Whether it completes or stops at a failing stage, the pipeline
leaves the ledger, the as-of date, and `_active_symbols` exactly as it
received them: the stages only write the cache, `current_prices`, the
derived table and the positions. -/
lemma runPipeline_pres (f : Fetch) (today : Int) (s : PState) :
    (runPipeline f today s).1.trades = s.trades ∧
    (runPipeline f today s).1.asOf = s.asOf ∧
    (runPipeline f today s).1.activeSymbols = s.activeSymbols := by
  unfold runPipeline
  rcases hup : updatePriceData f today (stepProcess s) with ⟨s2, e2⟩
  have hs2 : (updatePriceData f today (stepProcess s)).1 = s2 := by rw [hup]
  have h2t : s2.trades = s.trades := by rw [← hs2]; rfl
  have h2a : s2.asOf = s.asOf := by rw [← hs2]; rfl
  have h2s : s2.activeSymbols = s.activeSymbols := by rw [← hs2]; rfl
  cases e2 with
  | some e =>
    rw [seqStage_some, seqStage_some]
    exact ⟨h2t, h2a, h2s⟩
  | none =>
    rw [seqStage_none]
    rcases has : assignPriceData s2 with ⟨s3, e3⟩
    have hs3 : (assignPriceData s2).1 = s3 := by rw [has]
    have hpres := assignPriceData_pres s2
    rw [hs3] at hpres
    cases e3 with
    | some e =>
      rw [seqStage_some]
      exact ⟨hpres.1.trans h2t, hpres.2.1.trans h2a, hpres.2.2.trans h2s⟩
    | none =>
      rw [seqStage_none]
      exact ⟨hpres.1.trans h2t, hpres.2.1.trans h2a, hpres.2.2.trans h2s⟩

/-- After `combine` — failed or completed — the object holds the
concatenated ledger and the resolved as-of date. -/
lemma combine_state (fetch : Fetch) (today : Int)
    (self other : PState) (asOfArg : Option Int) :
    (combine fetch today self other asOfArg).1.trades =
      self.trades ++ other.trades ∧
    (combine fetch today self other asOfArg).1.asOf =
      resolveCombinedAsOf self.asOf other.asOf asOfArg := by
  unfold combine
  have h := runPipeline_pres fetch today
    { self with
        trades := self.trades ++ other.trades
        asOf := resolveCombinedAsOf self.asOf other.asOf asOfArg }
  exact ⟨h.1, h.2.1⟩

/-- C4, amended: `combine` is not atomic.  It concatenates the other
ledger onto its own and overwrites its as-of date before any fallible
stage runs, and no stage restores them, so whatever the pipeline does —
fail at any stage or complete — the portfolio is left holding the
combined ledger and the newly resolved as-of date, never its previous
state. -/
theorem C4_combine_mutates_first (fetch : Fetch) (today : Int)
    (self other : PState) (asOfArg : Option Int) :
    (combine fetch today self other asOfArg).1.trades =
      self.trades ++ other.trades ∧
    (combine fetch today self other asOfArg).1.asOf =
      resolveCombinedAsOf self.asOf other.asOf asOfArg :=
  combine_state fetch today self other asOfArg

/-- A warm two-day price table covering "ABC" through day 400. -/
def basePT : PriceTable :=
  { dates := [0, 400], cols := ["ABC"],
    val := fun d s =>
      if s = "ABC" then some (if d = 0 then 100 else 120) else none }

/-- A price source whose every download fails (network error). -/
def fetchFail : Fetch := fun _ _ => .error ()

/-- A trade in a symbol the warm cache does not cover. -/
def newTrade : Trade :=
  { date := 100, account := "a2", symbol := "NEW", action := "BUY",
    quantity := 1, price := 10, amount := -10 }

/-- The other portfolio handed to `combine`: one "NEW" trade, as-of
day 300. -/
def otherState : PState :=
  { trades := [newTrade], asOf := 300, processed := [], symbols := [],
    cache := none, currentPrices := fun _ => none, positions := [],
    activeSymbols := none }

/-- A portfolio validly constructed against the warm cache: the
construction pipeline completes without error. -/
def pfSelf : PState :=
  (initPortfolio fetchFail 400 none [abcBuy] (some basePT) (some 400) 400).1

/-- The evaluation simp set for running the pipeline on literals. -/
lemma pfSelf_init_ok :
    (initPortfolio fetchFail 400 none [abcBuy] (some basePT) (some 400)
      400).2 = none ∧ pfSelf.trades = [abcBuy] := by
  constructor <;>
    norm_num +decide [pfSelf, initPortfolio, runPipeline, stepProcess,
      updatePriceData, updateCache, assignPriceData, assignCurrent,
      updateSnapshot, nanAtMax, uniqueSymbols, processTrades, attachCum,
      attachCumAux, sortTrades, insertSorted, deriveFields, basePT, abcBuy,
      fetchFail, combineFirst, keyUnion, tradeLE, DAYS_IN_A_YEAR,
      List.max?, List.dedup_nil, List.dedup_cons_of_not_mem,
      List.dedup_cons_of_mem, positionFor]

/-- C4, counterexample: a portfolio in a valid state (its construction
pipeline completed without error, ledger `[abcBuy]`) combined with a
portfolio bringing an uncached symbol while the price download fails:
the combine pipeline fails at the price-refresh stage, yet the
portfolio is left holding the concatenated ledger — its observable
state is not the previously valid one. -/
theorem C4_counterexample :
    (initPortfolio fetchFail 400 none [abcBuy] (some basePT) (some 400)
      400).2 = none ∧
    pfSelf.trades = [abcBuy] ∧
    (combine fetchFail 400 pfSelf otherState none).2 =
      some PErr.networkError ∧
    (combine fetchFail 400 pfSelf otherState none).1.trades =
      [abcBuy, newTrade] ∧
    ([abcBuy, newTrade] : List Trade) ≠ [abcBuy] := by
  refine ⟨pfSelf_init_ok.1, pfSelf_init_ok.2, ?_, ?_, by simp⟩ <;>
    norm_num +decide [pfSelf, otherState, initPortfolio, combine,
      resolveCombinedAsOf, runPipeline, stepProcess, updatePriceData,
      updateCache, assignPriceData, assignCurrent, updateSnapshot,
      nanAtMax, uniqueSymbols, processTrades, attachCum, attachCumAux,
      sortTrades, insertSorted, deriveFields, basePT, abcBuy, newTrade,
      fetchFail, combineFirst, keyUnion, tradeLE, DAYS_IN_A_YEAR,
      List.max?, List.dedup_nil, List.dedup_cons_of_not_mem,
      List.dedup_cons_of_mem, positionFor]

/-- C5: the as-of date resolution of `combine` is a code bug.  When a
date is explicitly supplied, line 275 converts `self.as_of_date`
instead of the argument, so the supplied value is silently ignored and
the portfolio keeps its previous as-of date; with no argument the
minimum of the two as-of dates is taken as documented.  At
`self.as_of_date = 100`, `other.as_of_date = 50`,
`combine(other, as_of_date = 200)` the result is 100, not 200. -/
theorem C5_combine_asof :
    (∀ (s o d : Int), resolveCombinedAsOf s o (some d) = s) ∧
    (∀ s o : Int, resolveCombinedAsOf s o none = min s o) ∧
    (∀ (fetch : Fetch) (today : Int) (self other : PState) (d : Int),
      (combine fetch today self other (some d)).1.asOf = self.asOf) ∧
    resolveCombinedAsOf 100 50 (some 200) = 100 ∧ (100 : Int) ≠ 200 := by
  refine ⟨fun s o d => rfl, fun s o => rfl, ?_, rfl, by norm_num⟩
  intro fetch today self other d
  exact (combine_state fetch today self other (some d)).2

/-! ### Lemmas about the upcoming-LTCG query -/

/-- The error `get_upcoming_ltcg_lots` actually raises for each filter
shape when `_active_symbols` was never assigned: `TypeError` for a
truthy filter of unsupported type, otherwise `AttributeError` from
reading `self._active_symbols`. -/
def expectedErr : SymArg → PErr
  | .otherArg true => .typeError
  | _ => .attributeError

/-- With `_active_symbols` unassigned, the query always raises: the
error is `expectedErr` of the filter argument. -/
lemma getUpcoming_raises (s : PState) (d : Int) (sym : SymArg)
    (h : s.activeSymbols = none) :
    getUpcomingLtcgLots s d sym = .error (expectedErr sym) := by
  cases sym with
  | noneArg =>
    simp only [getUpcomingLtcgLots, SymArg.isTruthy, Bool.false_eq_true,
      if_false, finalFilter, h, expectedErr]
  | strArg v =>
    by_cases hv : v = ""
    · simp [getUpcomingLtcgLots, SymArg.isTruthy, hv, finalFilter, h,
        expectedErr]
    · simp [getUpcomingLtcgLots, SymArg.isTruthy, hv, applySymbolFilter,
        finalFilter, h, expectedErr]
  | listArg l =>
    by_cases hl : l.isEmpty
    · simp [getUpcomingLtcgLots, SymArg.isTruthy, hl, finalFilter, h,
        expectedErr]
    · simp [getUpcomingLtcgLots, SymArg.isTruthy, hl, applySymbolFilter,
        finalFilter, h, expectedErr]
  | otherArg b =>
    cases b with
    | true =>
      simp [getUpcomingLtcgLots, SymArg.isTruthy, applySymbolFilter,
        expectedErr]
    | false =>
      simp [getUpcomingLtcgLots, SymArg.isTruthy, finalFilter, h,
        expectedErr]

/-- C9, amended: the candidate filter of `get_upcoming_ltcg_lots`
selects exactly the short-term lots whose holding period strictly
exceeds `DAYS_IN_A_YEAR - within_days` — on whole days the same cutoff
as the claimed `365.25 - within_days`, so a lot at 360 days is selected
for a 7-day window whose boundary is 358.25; a truthy symbols filter
that is neither a string nor a list raises `TypeError` (the spec's
`UnsupportedFilterTypeError` does not exist in the source); but the
query never returns those lots: its final step reads the never-assigned
`_active_symbols` and raises `AttributeError` instead. -/
theorem C9_upcoming_ltcg (s : PState) (d : Int) (sym : SymArg)
    (h : s.activeSymbols = none) :
    getUpcomingLtcgLots s d sym = .error (expectedErr sym) ∧
    expectedErr (SymArg.otherArg true) = PErr.typeError ∧
    (∀ t, t ∈ ltcgCandidates s d ↔
      (t ∈ stcgLots s.processed ∧
        (365.25 : ℚ) - (d : ℚ) < (t.holding_period_days : ℚ))) := by
  refine ⟨getUpcoming_raises s d sym h, rfl, ?_⟩
  intro t
  simp only [ltcgCandidates, List.mem_filter, decide_eq_true_eq,
    threshold_bridge]

/-- A short-term trade 360 days old at as-of day 365. -/
def stTrade : Trade :=
  { date := 5, account := "a1", symbol := "STS", action := "BUY",
    quantity := 3, price := 50, amount := -150 }

/-- The derived row `processTrades 365 [stTrade]` produces. -/
def stDerived360 : DTrade :=
  { date := 5, account := "a1", symbol := "STS", action := "BUY",
    quantity := 3, price := 50, amount := -150,
    holding_period_days := 360, amount_holding_period_days := -54000,
    ltcg_flag := 0, ltcg_shares := 0, cum_quantity := 3, ltcg_cost := 0 }

/-- `_process_trades` on the short-term-lot ledger. -/
lemma processTrades_st : processTrades 365 [stTrade] = [stDerived360] := by
  norm_num [processTrades, attachCum, attachCumAux, sortTrades, insertSorted,
    deriveFields, stTrade, stDerived360, DAYS_IN_A_YEAR]

/-- A portfolio state holding the 360-day short-term lot, with
`_active_symbols` unassigned as every construction leaves it. -/
def s9 : PState :=
  { trades := [stTrade], asOf := 365, processed := [stDerived360],
    symbols := ["STS"], cache := none, currentPrices := fun _ => none,
    positions := [], activeSymbols := none }

/-- C9, counterexample: the candidate set at `within_days = 7` holds
the 360-day lot (360 exceeds the 358-day cutoff), yet the call returns
no lots at all — it raises `AttributeError` from the unassigned
`_active_symbols`. -/
theorem C9_counterexample :
    ltcgCandidates s9 7 = [stDerived360] ∧
    getUpcomingLtcgLots s9 7 SymArg.noneArg =
      .error PErr.attributeError := by
  exact ⟨rfl, rfl⟩

/-- Witness for C9's amended statement at the concrete state. -/
theorem C9_upcoming_ltcg_witness :
    s9.activeSymbols = none ∧
    (getUpcomingLtcgLots s9 7 SymArg.noneArg =
        .error (expectedErr SymArg.noneArg) ∧
      expectedErr (SymArg.otherArg true) = PErr.typeError ∧
      (∀ t, t ∈ ltcgCandidates s9 7 ↔
        (t ∈ stcgLots s9.processed ∧
          (365.25 : ℚ) - ((7 : Int) : ℚ) <
            (t.holding_period_days : ℚ)))) :=
  ⟨rfl, C9_upcoming_ltcg s9 7 SymArg.noneArg rfl⟩

/-- C10, counterexample: with a truthy symbols filter of unsupported
type the call raises `TypeError` at the dispatch (portfolio.py, line
264) before ever reaching the `_active_symbols` read, so not every
argument combination raises an attribute-not-found error. -/
theorem C10_counterexample :
    getUpcomingLtcgLots s9 7 (SymArg.otherArg true) =
      .error PErr.typeError ∧
    PErr.typeError ≠ PErr.attributeError := by
  exact ⟨rfl, by decide⟩

/-- C10, amended: for every portfolio state with `_active_symbols`
unassigned — as `__init__` leaves it and `combine` keeps it, since no
method of the class ever assigns the attribute — every call whose
symbols filter is not a truthy unsupported-type value raises
`AttributeError` before returning any lots; the one exception raises
`TypeError` first. -/
theorem C10_attribute_error :
    (∀ (s : PState) (d : Int) (sym : SymArg), s.activeSymbols = none →
      sym ≠ SymArg.otherArg true →
      getUpcomingLtcgLots s d sym = .error PErr.attributeError) ∧
    (∀ (fetch : Fetch) (today : Int) (cc : Option PriceTable)
        (tr : List Trade) (pd : Option PriceTable) (aso : Option Int)
        (now : Int),
      ((initPortfolio fetch today cc tr pd aso now).1).activeSymbols =
        none) ∧
    (∀ (fetch : Fetch) (today : Int) (self other : PState)
        (aso : Option Int),
      ((combine fetch today self other aso).1).activeSymbols =
        self.activeSymbols) := by
  refine ⟨?_, ?_, ?_⟩
  · intro s d sym h hne
    rw [getUpcoming_raises s d sym h]
    cases sym with
    | noneArg => rfl
    | strArg v => rfl
    | listArg l => rfl
    | otherArg b =>
      cases b with
      | true => exact absurd rfl hne
      | false => rfl
  · intro fetch today cc tr pd aso now
    exact (runPipeline_pres fetch today
      { trades := tr
        asOf := aso.getD now
        processed := []
        symbols := []
        cache :=
          match pd with
          | some p =>
            match cc with
            | some c => some (combineFirst c p)
            | none => some p
          | none => cc
        currentPrices := fun _ => none
        positions := []
        activeSymbols := none }).2.2
  · intro fetch today self other aso
    exact (runPipeline_pres fetch today
      { self with
          trades := self.trades ++ other.trades
          asOf := resolveCombinedAsOf self.asOf other.asOf aso }).2.2

/-- Witness for C10's amended statement at the concrete state. -/
theorem C10_attribute_error_witness :
    s9.activeSymbols = none ∧
    SymArg.strArg "X" ≠ SymArg.otherArg true ∧
    getUpcomingLtcgLots s9 3 (SymArg.strArg "X") =
      .error PErr.attributeError :=
  ⟨rfl, by decide,
    C10_attribute_error.1 s9 3 (SymArg.strArg "X") rfl (by decide)⟩

end Pytradersan
